import Mathlib

/-!
Verification of the capability-token authorization subsystem of the blossy
repository (package `auth`, files src/auth/auth.go and src/auth/blossom.go,
plus `DecodeBase64` from src/utils/utils.go).

Shallow embedding conventions:
- Go strings are Lean `String`; Go `[]T` slices are Lean `List T`.
- `time.Time` values are unix seconds as `Int` (every timestamp in this
  subsystem is constructed from unix seconds: `nostr.Timestamp` and
  `time.Unix(sec, 0)`), and `time.Now()` becomes an explicit `now : Int`
  parameter threaded through the validation functions.
- Fallible Go functions returning `(T, error)` become `Except` values; the
  distinct error values the code can produce are modelled as inductive types
  so that theorems can tell the failure branches apart.
- External collaborators (the base64 library decoders, JSON unmarshalling,
  and the nostr cryptographic checks CheckID / CheckSignature) are abstract
  function parameters, collected in the `Externals` structure; theorems
  quantify over them.
-/

namespace Blossy

/-- Blossom content hashes in canonical form. The external `blossom.Hash` is a
32-byte value whose canonical textual form is 64 lowercase hex characters; we
represent a hash by that canonical string, so byte-exact equality is string
equality. -/
abbrev Hash := String

/-- A nostr tag: a list of strings (Go `nostr.Tag`). -/
abbrev Tag := List String

/-- Hex-digit test used by hash parsing. -/
def isHexCh (c : Char) : Bool :=
  c.isDigit || (('a' ≤ c) && (c ≤ 'f')) || (('A' ≤ c) && (c ≤ 'F'))

/-- Modelled from the spec: `blossom.ParseHash` lives in the external
`github.com/pippellia-btc/blossom` package, not under src/; only its callers
are in this repository. Per the spec (HashCodec, §2 and §3 ResourceHash), it
parses a fixed 32-byte identifier from a 64-hex-character string, with a
canonical lowercase textual form; any other input is rejected. -/
def ParseHash (s : String) : Option Hash :=
  if s.toList.length = 64 && s.toList.all isHexCh then
    some (String.mk (s.toList.map Char.toLower))
  else none

/-- The all-zero hash (the canonical form of the zero 32-byte value). -/
def zeroHash : Hash := String.mk (List.replicate 64 '0')

/-- Action constants from src/auth/auth.go. `Action` is a Go string type, so
actions are embedded as strings. -/
def ActionGet : String := "get"

def ActionUpload : String := "upload"

def ActionList : String := "list"

def ActionDelete : String := "delete"

/-- `validActions` from src/auth/auth.go. -/
def validActions : List String := [ActionGet, ActionUpload, ActionList, ActionDelete]

/-- `MaxTags` from src/auth/blossom.go. -/
def MaxTags : Nat := 512

/-- `DefaultClockSkew` from src/auth/blossom.go (10 seconds). -/
def DefaultClockSkew : Int := 10

/-- `KindBlossomAuth` from src/auth/blossom.go. -/
def KindBlossomAuth : Int := 24242

/-- The fields of `nostr.Event` consumed by this subsystem. -/
structure NostrEvent where
  pubKey : String
  createdAt : Int
  kind : Int
  tags : List Tag
deriving DecidableEq, Repr

/-- `BlossomAuth` from src/auth/blossom.go: a parsed Blossom authorization
event. -/
structure BlossomAuth where
  pubkey : String
  createdAt : Int
  expiration : Int
  action : String
  hashes : List Hash
  hostnames : List String
deriving DecidableEq, Repr

/-- Base-10 signed-integer parsing, embedding Go `strconv.ParseInt(s, 10, 64)`:
an optional single sign followed by at least one decimal digit, with the value
required to fit in int64. -/
def parseInt64 (s : String) : Option Int :=
  let (neg, digits) :=
    match s.toList with
    | '-' :: rest => (true, rest)
    | '+' :: rest => (false, rest)
    | rest => (false, rest)
  if digits.length = 0 || !(digits.all Char.isDigit) then none
  else
    let n : Nat := digits.foldl (fun acc c => 10 * acc + (c.toNat - 48)) 0
    let v : Int := if neg then -(n : Int) else (n : Int)
    if -9223372036854775808 ≤ v ∧ v ≤ 9223372036854775807 then some v else none

/-- The initial `BlossomAuth` built by `ParseBlossomAuth` before the tag loop:
pubkey and createdAt are copied from the event, the remaining fields are the
Go zero values. -/
def initAuth (e : NostrEvent) : BlossomAuth :=
  { pubkey := e.pubKey, createdAt := e.createdAt, expiration := 0,
    action := "", hashes := [], hostnames := [] }

/-- The tag loop of `ParseBlossomAuth` (src/auth/blossom.go): iterate the tags,
skipping tags with fewer than two elements, dispatching on the tag key, with
early return on the error branches. The two booleans are `foundT` and
`foundExp`. -/
def parseLoop : List Tag → Bool → Bool → BlossomAuth → Except String (Bool × Bool × BlossomAuth)
  | [], fT, fE, a => .ok (fT, fE, a)
  | g :: rest, fT, fE, a =>
    match g with
    | k :: v :: _ =>
      if k = "t" then
        if fT then .error ("t tag appears multiple times")
        else if validActions.contains v then parseLoop rest true fE { a with action := v }
        else .error ("invalid t tag: " ++ v)
      else if k = "expiration" then
        if fE then .error ("expiration tag appears multiple times")
        else
          match parseInt64 v with
          | some n => parseLoop rest fT true { a with expiration := n }
          | none => .error ("expiration tag is not a valid unix time")
      else if k = "x" then
        match ParseHash v with
        | some h => parseLoop rest fT fE { a with hashes := a.hashes ++ [h] }
        | none => parseLoop rest fT fE a
      else if k = "server" then
        parseLoop rest fT fE { a with hostnames := a.hostnames ++ [v] }
      else
        parseLoop rest fT fE a
    | _ => parseLoop rest fT fE a

/-- `ParseBlossomAuth` from src/auth/blossom.go. The `Option NostrEvent`
argument models the `*nostr.Event` pointer (`none` is the nil pointer). -/
def ParseBlossomAuth (e : Option NostrEvent) : Except String BlossomAuth :=
  match e with
  | none => .error ("event is nil")
  | some ev =>
    if ev.kind ≠ KindBlossomAuth then .error ("event kind is not 24242")
    else if MaxTags < ev.tags.length then .error ("event has too many tags")
    else
      match parseLoop ev.tags false false (initAuth ev) with
      | .error msg => .error msg
      | .ok (fT, fE, a) =>
        if !fT then .error ("t tag is missing")
        else if !fE then .error ("expiration tag is missing")
        else .ok a

/-- The distinct failure values `Validate` can produce (the code returns
distinct error strings; we name the branches). -/
inductive ValErr
  | createdFuture
  | expired
  | wrongAction
  | missingHash
  | wrongHash
  | wrongHostname
deriving DecidableEq, Repr

/-- The trailing hostname check shared by both validation variants
(src/auth/blossom.go: no server tags means the event is valid for all
servers). -/
def hostnameCheck (a : BlossomAuth) (hostname : String) : Except ValErr Unit :=
  if 0 < a.hostnames.length && !(a.hostnames.contains hostname) then
    .error .wrongHostname
  else .ok ()

/-- `Validate` as written in src/auth/blossom.go, where the expected hash
parameter has the value type `blossom.Hash`. Times are unix seconds and
`now` stands for `time.Now()`; `CreatedAt.After(now+skew)` and
`Expiration.Before(now-skew)` are the strict comparisons. -/
def Validate (a : BlossomAuth) (action : String) (hash : Hash) (hostname : String) (now : Int) : Except ValErr Unit :=
  if now + DefaultClockSkew < a.createdAt then .error .createdFuture
  else if a.expiration < now - DefaultClockSkew then .error .expired
  else if a.action ≠ action then .error .wrongAction
  else if 0 < a.hashes.length && !(a.hashes.contains hash) then .error .wrongHash
  else hostnameCheck a hostname

/-- Modelled from the spec: the variant of `Validate` that takes an optional
expected hash. The body under src/auth/blossom.go has a stale value-typed
hash parameter, while its caller (`Authenticate` in src/auth/auth.go, which
passes a `*blossom.Hash`), the declaration `ErrMissingHash` in
src/auth/auth.go, and the tests in src/auth/blossom_test.go (cases
"nil hash with x tags" and "nil hash without x tags") all use the optional
form; that body is missing from src/. Per spec §4.5 rule 4: if the
capability's resource hashes are non-empty, the expected hash must be present
and equal to one of the entries; a nil hash against a non-empty list fails
(ErrMissingHash). All other checks are as in `Validate`. -/
def ValidateOpt (a : BlossomAuth) (action : String) (hash : Option Hash) (hostname : String) (now : Int) : Except ValErr Unit :=
  if now + DefaultClockSkew < a.createdAt then .error .createdFuture
  else if a.expiration < now - DefaultClockSkew then .error .expired
  else if a.action ≠ action then .error .wrongAction
  else if 0 < a.hashes.length then
    match hash with
    | none => .error .missingHash
    | some h =>
      if !(a.hashes.contains h) then .error .wrongHash
      else hostnameCheck a hostname
  else hostnameCheck a hostname

/-- The fields of `*http.Request` consumed by this subsystem: the method, the
URL path, and the value of the Authorization header (`""` when the header is
absent, as returned by Go `Header.Get`). -/
structure Request where
  method : String
  path : String
  authHeader : String
deriving DecidableEq, Repr

/-- Failures of `DecodeBase64` (src/utils/utils.go): the ambiguity error
produced there, or an error propagated from the base64 library decoder. -/
inductive DecodeErr
  | ambiguous
  | libErr (msg : String)
deriving DecidableEq, Repr

/-- External collaborators, abstracted: the four Go base64 library decoders,
JSON unmarshalling of an event, and the nostr event cryptographic checks. -/
structure Externals where
  decodeUrlPad : String → Except String (List Nat)
  decodeUrlRaw : String → Except String (List Nat)
  decodeStdPad : String → Except String (List Nat)
  decodeStdRaw : String → Except String (List Nat)
  unmarshal : List Nat → Except String NostrEvent
  checkID : NostrEvent → Bool
  checkSig : NostrEvent → Except String Bool

/-- Wrap a library decoder result into the `DecodeErr` error type. -/
def liftB64 (r : Except String (List Nat)) : Except DecodeErr (List Nat) :=
  match r with
  | .error m => .error (.libErr m)
  | .ok b => .ok b

/-- `strings.ContainsAny(s, "-_")`: presence of a URL-safe-exclusive base64
character. -/
def hasUrlCh (s : String) : Bool := s.toList.any (fun c => c == '-' || c == '_')

/-- `strings.ContainsAny(s, "+/")`: presence of a standard-exclusive base64
character. -/
def hasStdCh (s : String) : Bool := s.toList.any (fun c => c == '+' || c == '/')

/-- `strings.HasSuffix(s, "=")`: the string ends with a pad character. -/
def endsPad (s : String) : Bool := s.toList.getLast? = some '='

/-- `DecodeBase64` from src/utils/utils.go: detect the base64 variant
(standard vs URL-safe, padded vs raw) and dispatch to the corresponding
library decoder; fail as ambiguous if characters exclusive to both alphabets
appear. -/
def DecodeBase64 (ext : Externals) (s : String) : Except DecodeErr (List Nat) :=
  let isURLSafe := hasUrlCh s
  let isStandard := hasStdCh s
  let isPadded := endsPad s
  if isURLSafe && isStandard then .error .ambiguous
  else if isURLSafe && isPadded then liftB64 (ext.decodeUrlPad s)
  else if isURLSafe && !isPadded then liftB64 (ext.decodeUrlRaw s)
  else if !isURLSafe && isPadded then liftB64 (ext.decodeStdPad s)
  else liftB64 (ext.decodeStdRaw s)

/-- Helper for `splitSpace`: split the remaining characters on every space,
`acc` holding the current field reversed. -/
def splitSpaceAux : List Char → List Char → List String
  | [], acc => [String.mk acc.reverse]
  | c :: cs, acc =>
    if c = ' ' then String.mk acc.reverse :: splitSpaceAux cs []
    else splitSpaceAux cs (c :: acc)

/-- Go `strings.Split(s, " ")`: split around every space; a string with no
space yields a single field, and adjacent separators yield empty fields. -/
def splitSpace (s : String) : List String := splitSpaceAux s.toList []

/-- Failures of `ExtractEvent` (src/auth/auth.go): the four error values
declared there, with the wrapped causes carried along. -/
inductive ExtractErr
  | missingHeader
  | invalidScheme
  | invalidBase64 (e : DecodeErr)
  | invalidJSON (e : String)
deriving DecidableEq, Repr

/-- `ExtractEvent` from src/auth/auth.go: read the Authorization header, split
on spaces into exactly two parts with scheme literal "Nostr", base64-decode
the payload, and unmarshal the event. -/
def ExtractEvent (ext : Externals) (r : Request) : Except ExtractErr NostrEvent :=
  if r.authHeader = "" then .error .missingHeader
  else
    match splitSpace r.authHeader with
    | [scheme, payload] =>
      if scheme ≠ "Nostr" then .error .invalidScheme
      else
        match DecodeBase64 ext payload with
        | .error e => .error (.invalidBase64 e)
        | .ok bytes =>
          match ext.unmarshal bytes with
          | .error e => .error (.invalidJSON e)
          | .ok ev => .ok ev
    | _ => .error .invalidScheme

/-- Whether the character list `l` begins with the character list `p`
(`strings.HasPrefix` on the underlying characters). -/
def beginsWith : List Char → List Char → Bool
  | _, [] => true
  | [], _ :: _ => false
  | c :: cs, d :: ds => (c = d) && beginsWith cs ds

/-- `strings.TrimPrefix(path, "/")`: remove a single leading "/" when
present. -/
def stripSlash (s : String) : String :=
  match s.toList with
  | '/' :: rest => String.mk rest
  | _ => s

/-- `strings.HasPrefix(p, "list")`: the string begins with the four
characters of "list". -/
def startsWithList (s : String) : Bool := beginsWith s.toList ("list").toList

/-- `impliedAction` from src/auth/auth.go: strip a single leading "/" from the
path, then dispatch: upload-family path names imply upload for any method;
a path starting with "list" implies list; GET/HEAD implies get; DELETE
implies delete; otherwise there is no implied action. -/
def impliedAction (r : Request) : Except String String :=
  let p := stripSlash r.path
  if p = "upload" || p = "media" || p = "mirror" then .ok ActionUpload
  else if startsWithList p then .ok ActionList
  else if r.method = "GET" || r.method = "HEAD" then .ok ActionGet
  else if r.method = "DELETE" then .ok ActionDelete
  else .error ("this request does not have an implied action")

/-- Failures of `Authenticate` (src/auth/auth.go), one constructor per failing
branch, carrying the wrapped cause. -/
inductive AuthErr
  | extractErr (e : ExtractErr)
  | invalidID
  | invalidSigErr (msg : String)
  | invalidSig
  | noImpliedAction (msg : String)
  | parseErr (msg : String)
  | validateErr (e : ValErr)
  | unsupportedKind (k : Int)
deriving DecidableEq, Repr

/-- `Authenticate` from src/auth/auth.go, returning the `(pubkey, err)` pair:
extract the event (a missing header yields an empty pubkey and no error),
check the event ID and signature, resolve the implied action, then for the
Blossom kind parse and validate the capability, returning its pubkey. The
validation call passes the optional hash through, as the source does with its
`*blossom.Hash` parameter (see `ValidateOpt`). -/
def Authenticate (ext : Externals) (r : Request) (hostname : String) (hash : Option Hash) (now : Int) : String × Option AuthErr :=
  match ExtractEvent ext r with
  | .error .missingHeader => ("", none)
  | .error e => ("", some (.extractErr e))
  | .ok event =>
    if !(ext.checkID event) then ("", some .invalidID)
    else
      match ext.checkSig event with
      | .error m => ("", some (.invalidSigErr m))
      | .ok false => ("", some .invalidSig)
      | .ok true =>
        match impliedAction r with
        | .error m => ("", some (.noImpliedAction m))
        | .ok action =>
          if event.kind = KindBlossomAuth then
            match ParseBlossomAuth (some event) with
            | .error m => ("", some (.parseErr m))
            | .ok auth =>
              match ValidateOpt auth action hash hostname now with
              | .error e => ("", some (.validateErr e))
              | .ok _ => (auth.pubkey, none)
          else ("", some (.unsupportedKind event.kind))

/-- Trivial instantiation of the external collaborators, used to evaluate the
embedding at concrete inputs: decoders accept everything with an empty byte
result, unmarshalling always fails, crypto checks always pass. -/
def extTriv : Externals :=
  { decodeUrlPad := fun _ => .ok []
    decodeUrlRaw := fun _ => .ok []
    decodeStdPad := fun _ => .ok []
    decodeStdRaw := fun _ => .ok []
    unmarshal := fun _ => .error ("no event")
    checkID := fun _ => true
    checkSig := fun _ => .ok true }

/-- A tag that the parser dispatches to the `t` branch: key "t" and at least
two elements. -/
def isTTag (g : Tag) : Bool :=
  match g with
  | k :: _ :: _ => k = "t"
  | _ => false

/-- A tag that the parser dispatches to the `expiration` branch. -/
def isExpTag (g : Tag) : Bool :=
  match g with
  | k :: _ :: _ => k = "expiration"
  | _ => false

/-- A `t` tag whose action value is not one of the four valid actions. -/
def isBadT (g : Tag) : Bool :=
  match g with
  | k :: v :: _ => k = "t" && !(validActions.contains v)
  | _ => false

/-- The hash contributed by a tag: the parsed value of a well-formed `x` tag,
nothing for every other tag. -/
def xValue (g : Tag) : Option Hash :=
  match g with
  | k :: v :: _ => if k = "x" then ParseHash v else none
  | _ => none

/-- Decidable equality for `Except` results, so witnesses can be checked by
evaluation. -/
def exceptDecEq {ε α : Type} [DecidableEq ε] [DecidableEq α] : DecidableEq (Except ε α)
  | .error a, .error b =>
    if h : a = b then isTrue (by rw [h]) else isFalse (by intro hc; injection hc; contradiction)
  | .error _, .ok _ => isFalse (by intro hc; exact Except.noConfusion hc)
  | .ok _, .error _ => isFalse (by intro hc; exact Except.noConfusion hc)
  | .ok a, .ok b =>
    if h : a = b then isTrue (by rw [h]) else isFalse (by intro hc; injection hc; contradiction)

instance {ε α : Type} [DecidableEq ε] [DecidableEq α] : DecidableEq (Except ε α) := exceptDecEq

end Blossy

namespace Blossy

/-- Claim C6: `Validate` fails with the created-in-the-future failure whenever
`createdAt` is later than `now` plus the clock-skew tolerance, fails whenever
`expiration` is earlier than `now` minus the tolerance (with the expired
failure when the createdAt check passes), and timestamps within both bounds
pass the two time checks. -/
theorem validate_time_bounds (a : BlossomAuth) (act hash host : String) (now : Int) :
    (now + DefaultClockSkew < a.createdAt →
      Validate a act hash host now = .error .createdFuture) ∧
    (a.expiration < now - DefaultClockSkew →
      ∃ e, Validate a act hash host now = .error e ∧
        (e = ValErr.createdFuture ∨ e = ValErr.expired)) ∧
    (a.createdAt ≤ now + DefaultClockSkew → a.expiration < now - DefaultClockSkew →
      Validate a act hash host now = .error .expired) ∧
    (a.createdAt ≤ now + DefaultClockSkew → now - DefaultClockSkew ≤ a.expiration →
      Validate a act hash host now ≠ .error .createdFuture ∧
      Validate a act hash host now ≠ .error .expired) := by
  refine ⟨?_, ?_, ?_, ?_⟩
  · intro h
    unfold Validate
    rw [if_pos h]
  · intro h
    by_cases h1 : now + DefaultClockSkew < a.createdAt
    · exact ⟨.createdFuture, by unfold Validate; rw [if_pos h1], Or.inl rfl⟩
    · exact ⟨.expired, by unfold Validate; rw [if_neg h1, if_pos h], Or.inr rfl⟩
  · intro h1 h2
    unfold Validate
    rw [if_neg (by omega), if_pos h2]
  · intro h1 h2
    unfold Validate hostnameCheck
    rw [if_neg (by omega), if_neg (by omega)]
    split_ifs <;> simp

/-- Witness for C6 at a concrete capability and clock. -/
theorem validate_time_bounds_witness :
    Validate ⟨"pk", 70, 50, "get", [], []⟩ "get" "h" "host" 80 = .error .expired ∧
    Validate ⟨"pk", 70, 200, "get", [], []⟩ "get" "h" "host" 80 ≠ .error .expired := by
  constructor
  · exact (validate_time_bounds ⟨"pk", 70, 50, "get", [], []⟩ "get" "h" "host" 80).2.2.1
      (by decide) (by decide)
  · exact ((validate_time_bounds ⟨"pk", 70, 200, "get", [], []⟩ "get" "h" "host" 80).2.2.2
      (by decide) (by decide)).2

/-- Claim C3: holding the timestamps within the clock-skew bounds and the
action equal, a capability with no resource hashes never fails the hash check
for any expected hash, and one with no hostnames never fails the hostname
check for any hostname; with both lists empty, validation succeeds. -/
theorem validate_wildcards (a : BlossomAuth) (act hash host : String) (now : Int)
    (h1 : a.createdAt ≤ now + DefaultClockSkew)
    (h2 : now - DefaultClockSkew ≤ a.expiration)
    (h3 : a.action = act) :
    (a.hashes = [] → Validate a act hash host now ≠ .error .wrongHash ∧
      Validate a act hash host now ≠ .error .missingHash) ∧
    (a.hostnames = [] → Validate a act hash host now ≠ .error .wrongHostname) ∧
    (a.hashes = [] → a.hostnames = [] → Validate a act hash host now = .ok ()) := by
  unfold Validate hostnameCheck
  rw [if_neg (by omega), if_neg (by omega), if_neg (by simp [h3])]
  refine ⟨?_, ?_, ?_⟩
  · intro hh
    rw [if_neg (by simp [hh])]
    split_ifs <;> simp
  · intro hh
    split_ifs with h4 h5
    · simp
    · exact absurd h5 (by simp [hh])
    · simp
  · intro hh hn
    rw [if_neg (by simp [hh]), if_neg (by simp [hn])]

/-- Witness for C3 at a concrete wildcard capability. -/
theorem validate_wildcards_witness :
    Validate ⟨"pk", 100, 200, "get", [], []⟩ "get" "anyhash" "anyhost" 150 = .ok () :=
  (validate_wildcards ⟨"pk", 100, 200, "get", [], []⟩ "get" "anyhash" "anyhost" 150
    (by decide) (by decide) rfl).2.2 rfl rfl

end Blossy

namespace Blossy

/-- The hostname check succeeds when the hostname list is empty or contains
the expected hostname. -/
theorem hostnameCheck_ok (a : BlossomAuth) (host : String)
    (h : a.hostnames = [] ∨ a.hostnames.contains host = true) :
    hostnameCheck a host = .ok () := by
  unfold hostnameCheck
  split_ifs with hcond
  · exfalso
    rcases h with hn | hc
    · rw [hn] at hcond; simp at hcond
    · rw [hc] at hcond; simp at hcond
  · rfl

/-- Claim C1: against a capability with a non-empty resource-hash list,
validation with an absent expected hash always fails, and fails with the
missing-hash failure once the time and action checks pass; the zero-value
hash remains expressible as a present value that validates when listed; and
against a capability with an empty hash list, validation succeeds for any
expected hash, holding the action equal, the timestamps within bounds and
the hostname authorized. -/
theorem validateOpt_nil_hash (a : BlossomAuth) (act host : String) (h : Option Hash) (now : Int) :
    (a.hashes ≠ [] → ∃ e, ValidateOpt a act none host now = .error e) ∧
    (a.createdAt ≤ now + DefaultClockSkew → now - DefaultClockSkew ≤ a.expiration →
      a.action = act → a.hashes ≠ [] →
      ValidateOpt a act none host now = .error .missingHash) ∧
    (a.createdAt ≤ now + DefaultClockSkew → now - DefaultClockSkew ≤ a.expiration →
      a.action = act → a.hashes.contains zeroHash = true →
      (a.hostnames = [] ∨ a.hostnames.contains host = true) →
      ValidateOpt a act (some zeroHash) host now = .ok ()) ∧
    (a.hashes = [] → a.createdAt ≤ now + DefaultClockSkew →
      now - DefaultClockSkew ≤ a.expiration → a.action = act →
      (a.hostnames = [] ∨ a.hostnames.contains host = true) →
      ValidateOpt a act h host now = .ok ()) := by
  refine ⟨?_, ?_, ?_, ?_⟩
  · intro hne
    unfold ValidateOpt
    split_ifs with h1 h2 h3 h4
    · exact ⟨_, rfl⟩
    · exact ⟨_, rfl⟩
    · exact ⟨_, rfl⟩
    · exact ⟨_, rfl⟩
    · exact absurd (List.length_pos.mpr hne) h4
  · intro h1 h2 h3 hne
    unfold ValidateOpt
    rw [if_neg (by omega), if_neg (by omega), if_neg (by simp [h3]),
      if_pos (List.length_pos.mpr hne)]
  · intro h1 h2 h3 hz hhost
    have hne : a.hashes ≠ [] := by
      intro hnil
      rw [hnil] at hz
      simp at hz
    simp only [ValidateOpt]
    rw [if_neg (by omega), if_neg (by omega), if_neg (by simp [h3]),
      if_pos (List.length_pos.mpr hne), if_neg (by rw [hz]; simp)]
    exact hostnameCheck_ok a host hhost
  · intro hh h1 h2 h3 hhost
    unfold ValidateOpt
    rw [if_neg (by omega), if_neg (by omega), if_neg (by simp [h3]),
      if_neg (by simp [hh])]
    exact hostnameCheck_ok a host hhost

/-- Witness for C1: a nil hash against one listed hash fails as missing-hash,
the zero hash validates when listed, and any hash validates against an empty
hash list. -/
theorem validateOpt_nil_hash_witness :
    ValidateOpt ⟨"pk", 70, 200, "get", ["aa"], []⟩ "get" none "host" 80 = .error .missingHash ∧
    ValidateOpt ⟨"pk", 70, 200, "get", [zeroHash], []⟩ "get" (some zeroHash) "host" 80 = .ok () ∧
    ValidateOpt ⟨"pk", 70, 200, "get", [], []⟩ "get" (some "bb") "host" 80 = .ok () := by
  refine ⟨?_, ?_, ?_⟩
  · exact (validateOpt_nil_hash ⟨"pk", 70, 200, "get", ["aa"], []⟩ "get" "host" none 80).2.1
      (by decide) (by decide) rfl (by decide)
  · exact (validateOpt_nil_hash ⟨"pk", 70, 200, "get", [zeroHash], []⟩ "get" "host"
      (some zeroHash) 80).2.2.1 (by decide) (by decide) rfl (by simp) (Or.inl rfl)
  · exact (validateOpt_nil_hash ⟨"pk", 70, 200, "get", [], []⟩ "get" "host"
      (some "bb") 80).2.2.2 rfl (by decide) (by decide) rfl (Or.inl rfl)

/-- Claim C9: the implied action is upload when the path (after stripping one
leading slash) is upload, media or mirror, regardless of method; otherwise
list when the stripped path starts with "list"; otherwise get for GET or
HEAD; otherwise delete for DELETE; otherwise a no-implied-action failure.
In particular GET on /playlist resolves to get, because the list check is a
prefix check on the stripped path. -/
theorem impliedAction_cases (r : Request) :
    ((stripSlash r.path = "upload" ∨ stripSlash r.path = "media" ∨
        stripSlash r.path = "mirror") →
      impliedAction r = .ok ActionUpload) ∧
    (¬(stripSlash r.path = "upload" ∨ stripSlash r.path = "media" ∨
        stripSlash r.path = "mirror") →
      startsWithList (stripSlash r.path) = true →
      impliedAction r = .ok ActionList) ∧
    (¬(stripSlash r.path = "upload" ∨ stripSlash r.path = "media" ∨
        stripSlash r.path = "mirror") →
      startsWithList (stripSlash r.path) = false →
      (r.method = "GET" ∨ r.method = "HEAD") →
      impliedAction r = .ok ActionGet) ∧
    (¬(stripSlash r.path = "upload" ∨ stripSlash r.path = "media" ∨
        stripSlash r.path = "mirror") →
      startsWithList (stripSlash r.path) = false →
      ¬(r.method = "GET" ∨ r.method = "HEAD") → r.method = "DELETE" →
      impliedAction r = .ok ActionDelete) ∧
    (¬(stripSlash r.path = "upload" ∨ stripSlash r.path = "media" ∨
        stripSlash r.path = "mirror") →
      startsWithList (stripSlash r.path) = false →
      ¬(r.method = "GET" ∨ r.method = "HEAD") → r.method ≠ "DELETE" →
      ∃ msg, impliedAction r = .error msg) ∧
    (stripSlash ("/playlist") = "playlist" ∧
      startsWithList "playlist" = false ∧
      impliedAction ⟨"GET", "/playlist", ""⟩ = .ok ActionGet) := by
  have hsplit : ∀ hp : ¬(stripSlash r.path = "upload" ∨ stripSlash r.path = "media" ∨
      stripSlash r.path = "mirror"),
      ((stripSlash r.path = "upload" || stripSlash r.path = "media" ||
        stripSlash r.path = "mirror") = true → False) := by
    intro hp hc
    have hU : stripSlash r.path ≠ "upload" := fun hh => hp (Or.inl hh)
    have hM : stripSlash r.path ≠ "media" := fun hh => hp (Or.inr (Or.inl hh))
    have hR : stripSlash r.path ≠ "mirror" := fun hh => hp (Or.inr (Or.inr hh))
    simp [hU, hM, hR] at hc
  refine ⟨?_, ?_, ?_, ?_, ?_, ?_⟩
  · intro hp
    unfold impliedAction
    rw [if_pos (by rcases hp with h | h | h <;> simp [h])]
  · intro hp hl
    unfold impliedAction
    rw [if_neg (hsplit hp), if_pos hl]
  · intro hp hl hm
    unfold impliedAction
    rw [if_neg (hsplit hp), if_neg (by simp [hl]),
      if_pos (by rcases hm with h | h <;> simp [h])]
  · intro hp hl hm hd
    unfold impliedAction
    rw [if_neg (hsplit hp), if_neg (by simp [hl]),
      if_neg (by simp only [Bool.or_eq_true, decide_eq_true_eq]; exact fun hc => hm hc),
      if_pos (by simp [hd])]
  · intro hp hl hm hd
    unfold impliedAction
    rw [if_neg (hsplit hp), if_neg (by simp [hl]),
      if_neg (by simp only [Bool.or_eq_true, decide_eq_true_eq]; exact fun hc => hm hc),
      if_neg (by simp [hd])]
    exact ⟨_, rfl⟩
  · exact ⟨rfl, by decide, by decide⟩

/-- Witness for C9: GET on /playlist resolves to get, and PUT on /upload
resolves to upload. -/
theorem impliedAction_cases_witness :
    impliedAction ⟨"GET", "/playlist", ""⟩ = .ok ActionGet ∧
    impliedAction ⟨"PUT", "/upload", ""⟩ = .ok ActionUpload := by
  constructor
  · exact (impliedAction_cases ⟨"GET", "/playlist", ""⟩).2.2.1
      (by decide) (by decide) (Or.inl rfl)
  · exact (impliedAction_cases ⟨"PUT", "/upload", ""⟩).1 (Or.inl (by decide))

end Blossy

namespace Blossy

/-- A wrapped library-decoder result is never the ambiguity error. -/
theorem liftB64_ne_ambiguous (x : Except String (List Nat)) :
    liftB64 x ≠ .error .ambiguous := by
  unfold liftB64
  split <;> simp

/-- Claim C10: `DecodeBase64` fails as ambiguous exactly when the input
contains both a URL-safe-exclusive and a standard-exclusive character;
otherwise it selects the URL-safe alphabet when a URL-safe-exclusive
character is present and the standard alphabet otherwise, padded decoding
exactly when the string ends with a pad character, defaulting to unpadded
standard decoding. The statement holds for every instantiation of the
library decoders. -/
theorem decodeBase64_selects (ext : Externals) (s : String) :
    (hasUrlCh s = true → hasStdCh s = true →
      DecodeBase64 ext s = .error .ambiguous) ∧
    (DecodeBase64 ext s = .error .ambiguous →
      hasUrlCh s = true ∧ hasStdCh s = true) ∧
    (hasUrlCh s = true → hasStdCh s = false → endsPad s = true →
      DecodeBase64 ext s = liftB64 (ext.decodeUrlPad s)) ∧
    (hasUrlCh s = true → hasStdCh s = false → endsPad s = false →
      DecodeBase64 ext s = liftB64 (ext.decodeUrlRaw s)) ∧
    (hasUrlCh s = false → endsPad s = true →
      DecodeBase64 ext s = liftB64 (ext.decodeStdPad s)) ∧
    (hasUrlCh s = false → endsPad s = false →
      DecodeBase64 ext s = liftB64 (ext.decodeStdRaw s)) := by
  refine ⟨?_, ?_, ?_, ?_, ?_, ?_⟩
  · intro hu hs
    simp only [DecodeBase64]
    rw [if_pos (by rw [hu, hs]; rfl)]
  · intro hamb
    simp only [DecodeBase64] at hamb
    split_ifs at hamb with h1 h2 h3 h4
    · exact ⟨(Bool.and_eq_true _ _ |>.mp h1).1, (Bool.and_eq_true _ _ |>.mp h1).2⟩
    all_goals exact absurd hamb (liftB64_ne_ambiguous _)
  · intro hu hs hp
    simp only [DecodeBase64]
    rw [if_neg (by rw [hu, hs]; simp), if_pos (by rw [hu, hp]; rfl)]
  · intro hu hs hp
    simp only [DecodeBase64]
    rw [if_neg (by rw [hu, hs]; simp), if_neg (by rw [hu, hp]; simp),
      if_pos (by rw [hu, hp]; rfl)]
  · intro hu hp
    simp only [DecodeBase64]
    rw [if_neg (by rw [hu]; simp), if_neg (by rw [hu]; simp),
      if_neg (by rw [hu]; simp), if_pos (by rw [hu, hp]; rfl)]
  · intro hu hp
    simp only [DecodeBase64]
    rw [if_neg (by rw [hu]; simp), if_neg (by rw [hu]; simp),
      if_neg (by rw [hu]; simp), if_neg (by rw [hu, hp]; simp)]

/-- Witness for C10: a string mixing both alphabets is ambiguous, and a
string with neither distinguishing character nor padding selects the raw
standard decoder. -/
theorem decodeBase64_selects_witness :
    DecodeBase64 extTriv "a-b+" = .error .ambiguous ∧
    DecodeBase64 extTriv "abc" = liftB64 (extTriv.decodeStdRaw "abc") := by
  constructor
  · exact (decodeBase64_selects extTriv "a-b+").1 (by decide) (by decide)
  · exact (decodeBase64_selects extTriv "abc").2.2.2.2.2 (by decide) (by decide)

end Blossy

namespace Blossy

/-- Counterexample to claim C8 as stated: the header value "Nostr " (a
trailing space) is non-empty and splits into two parts whose second part is
empty, so it does not split into two non-empty parts with first part
"Nostr"; yet `ExtractEvent` does not fail with the invalid-scheme error — it
passes the scheme check, base64-decodes the empty payload, and fails later
at JSON unmarshalling. -/
theorem extractEvent_scheme_counterexample :
    splitSpace "Nostr " = ["Nostr", ""] ∧
    ExtractEvent extTriv ⟨"GET", "/abc", "Nostr "⟩ = .error (.invalidJSON ("no event")) ∧
    ExtractEvent extTriv ⟨"GET", "/abc", "Nostr "⟩ ≠ .error .invalidScheme := by
  refine ⟨by decide, by decide, by decide⟩

/-- Claim C8 (amended): for every non-empty Authorization header value that
does not split on spaces into exactly two parts with the first part equal to
the literal "Nostr", `ExtractEvent` fails with the invalid-scheme error; the
result is the same for every instantiation of the base64 decoders and the
JSON unmarshaller, so the failure occurs before any base64 decoding is
attempted. -/
theorem extractEvent_scheme (ext : Externals) (r : Request)
    (hne : r.authHeader ≠ "")
    (hbad : ∀ x, splitSpace r.authHeader ≠ ["Nostr", x]) :
    ExtractEvent ext r = .error .invalidScheme := by
  unfold ExtractEvent
  rw [if_neg hne]
  split
  case _ scheme payload heq =>
    by_cases hs : scheme = "Nostr"
    · exact absurd (hs ▸ heq) (hbad payload)
    · rw [if_pos hs]
  case _ => rfl

/-- Witness for C8 (amended): the end-to-end scenario "Basic abc123" fails
with invalid-scheme for arbitrary decoder behaviour. -/
theorem extractEvent_scheme_witness :
    ExtractEvent extTriv ⟨"GET", "/abc", "Basic abc123"⟩ = .error .invalidScheme :=
  extractEvent_scheme extTriv ⟨"GET", "/abc", "Basic abc123"⟩ (by decide)
    (fun x h => by
      rw [show splitSpace ("Basic abc123") = ["Basic", "abc123"] by decide] at h
      simp at h)

end Blossy

namespace Blossy

/-- One step of the tag loop on a `t` tag. -/
theorem parseLoop_cons_t (v : String) (w : List String) (rest : List Tag)
    (fT fE : Bool) (a : BlossomAuth) :
    parseLoop (("t" :: v :: w) :: rest) fT fE a =
      if fT then .error ("t tag appears multiple times")
      else if validActions.contains v then parseLoop rest true fE { a with action := v }
      else .error ("invalid t tag: " ++ v) := by
  simp only [parseLoop]
  simp

/-- One step of the tag loop on an `expiration` tag. -/
theorem parseLoop_cons_exp (v : String) (w : List String) (rest : List Tag)
    (fT fE : Bool) (a : BlossomAuth) :
    parseLoop (("expiration" :: v :: w) :: rest) fT fE a =
      if fE then .error ("expiration tag appears multiple times")
      else
        match parseInt64 v with
        | some n => parseLoop rest fT true { a with expiration := n }
        | none => .error ("expiration tag is not a valid unix time") := by
  simp only [parseLoop]
  simp

/-- One step of the tag loop on an `x` tag. -/
theorem parseLoop_cons_x (v : String) (w : List String) (rest : List Tag)
    (fT fE : Bool) (a : BlossomAuth) :
    parseLoop (("x" :: v :: w) :: rest) fT fE a =
      match ParseHash v with
      | some h => parseLoop rest fT fE { a with hashes := a.hashes ++ [h] }
      | none => parseLoop rest fT fE a := by
  simp only [parseLoop]
  simp

/-- One step of the tag loop on a `server` tag. -/
theorem parseLoop_cons_server (v : String) (w : List String) (rest : List Tag)
    (fT fE : Bool) (a : BlossomAuth) :
    parseLoop (("server" :: v :: w) :: rest) fT fE a =
      parseLoop rest fT fE { a with hostnames := a.hostnames ++ [v] } := by
  simp only [parseLoop]
  simp

/-- One step of the tag loop on a tag with an unrecognized key. -/
theorem parseLoop_cons_other (k v : String) (w : List String) (rest : List Tag)
    (fT fE : Bool) (a : BlossomAuth)
    (hk : k ≠ "t") (hke : k ≠ "expiration") (hkx : k ≠ "x") (hks : k ≠ "server") :
    parseLoop ((k :: v :: w) :: rest) fT fE a = parseLoop rest fT fE a := by
  simp only [parseLoop]
  simp [hk, hke, hkx, hks]

/-- One step of the tag loop on an empty tag. -/
theorem parseLoop_cons_nil (rest : List Tag) (fT fE : Bool) (a : BlossomAuth) :
    parseLoop ([] :: rest) fT fE a = parseLoop rest fT fE a := rfl

/-- One step of the tag loop on a one-element tag. -/
theorem parseLoop_cons_single (k : String) (rest : List Tag) (fT fE : Bool)
    (a : BlossomAuth) :
    parseLoop ([k] :: rest) fT fE a = parseLoop rest fT fE a := rfl

/-- One step of the tag loop on any tag that is neither a `t` tag nor an
`expiration` tag: the flags are unchanged and only the hash and hostname
lists of the accumulator can change. -/
theorem parseLoop_cons_skip (g : Tag) (rest : List Tag) (fT fE : Bool) (a : BlossomAuth)
    (hgT : isTTag g = false) (hgE : isExpTag g = false) :
    ∃ a₁, parseLoop (g :: rest) fT fE a = parseLoop rest fT fE a₁ ∧
      a₁.action = a.action ∧ a₁.expiration = a.expiration ∧
      a₁.pubkey = a.pubkey ∧ a₁.createdAt = a.createdAt := by
  rcases g with _ | ⟨k, _ | ⟨v, w⟩⟩
  · exact ⟨a, parseLoop_cons_nil rest fT fE a, rfl, rfl, rfl, rfl⟩
  · exact ⟨a, parseLoop_cons_single k rest fT fE a, rfl, rfl, rfl, rfl⟩
  · have hk : k ≠ "t" := by simpa [isTTag] using hgT
    have hke : k ≠ "expiration" := by simpa [isExpTag] using hgE
    by_cases hkx : k = "x"
    · subst hkx
      rw [parseLoop_cons_x]
      cases hp : ParseHash v with
      | some h => exact ⟨{ a with hashes := a.hashes ++ [h] }, rfl, rfl, rfl, rfl, rfl⟩
      | none => exact ⟨a, rfl, rfl, rfl, rfl, rfl⟩
    · by_cases hks : k = "server"
      · subst hks
        rw [parseLoop_cons_server]
        exact ⟨{ a with hostnames := a.hostnames ++ [v] }, rfl, rfl, rfl, rfl, rfl⟩
      · exact ⟨a, parseLoop_cons_other k v w rest fT fE a hk hke hkx hks, rfl, rfl, rfl, rfl⟩

end Blossy

namespace Blossy

/-- If the tag loop returns ok, the number of dispatched `t` tags among the
remaining tags is at most one, and zero when foundT is already set. -/
theorem parseLoop_ok_countT (tags : List Tag) :
    ∀ (fT fE : Bool) (a : BlossomAuth) (r : Bool × Bool × BlossomAuth),
    parseLoop tags fT fE a = .ok r → tags.countP isTTag ≤ cond fT 0 1 := by
  induction tags with
  | nil => intro fT fE a r _; cases fT <;> simp
  | cons g rest ih =>
    intro fT fE a r h
    rcases g with _ | ⟨k, _ | ⟨v, w⟩⟩
    · rw [parseLoop_cons_nil] at h
      simpa [List.countP_cons, isTTag] using ih _ _ _ _ h
    · rw [parseLoop_cons_single] at h
      simpa [List.countP_cons, isTTag] using ih _ _ _ _ h
    · by_cases hk : k = "t"
      · subst hk
        rw [parseLoop_cons_t] at h
        cases fT with
        | true => simp at h
        | false =>
          rw [if_neg (by simp)] at h
          cases hv : validActions.contains v with
          | false => rw [hv] at h; simp at h
          | true =>
            rw [hv] at h
            rw [if_pos rfl] at h
            have hthis : List.countP isTTag rest = 0 := by
              simpa using ih _ _ _ _ h
            rw [List.countP_cons_of_pos _ _ (by simp [isTTag]), hthis]
            simp
      · by_cases hke : k = "expiration"
        · subst hke
          rw [parseLoop_cons_exp] at h
          cases fE with
          | true => simp at h
          | false =>
            rw [if_neg (by simp)] at h
            cases hpv : parseInt64 v with
            | none => rw [hpv] at h; simp at h
            | some n =>
              rw [hpv] at h
              simpa [List.countP_cons, isTTag] using ih _ _ _ _ h
        · obtain ⟨a₁, heq, -, -, -, -⟩ :=
            parseLoop_cons_skip (k :: v :: w) rest fT fE a
              (by simp [isTTag, hk]) (by simp [isExpTag, hke])
          rw [heq] at h
          simpa [List.countP_cons, isTTag, hk] using ih _ _ _ _ h

/-- If the tag loop returns ok, the number of dispatched `expiration` tags
among the remaining tags is at most one, and zero when foundExp is set. -/
theorem parseLoop_ok_countExp (tags : List Tag) :
    ∀ (fT fE : Bool) (a : BlossomAuth) (r : Bool × Bool × BlossomAuth),
    parseLoop tags fT fE a = .ok r → tags.countP isExpTag ≤ cond fE 0 1 := by
  induction tags with
  | nil => intro fT fE a r _; cases fE <;> simp
  | cons g rest ih =>
    intro fT fE a r h
    rcases g with _ | ⟨k, _ | ⟨v, w⟩⟩
    · rw [parseLoop_cons_nil] at h
      simpa [List.countP_cons, isExpTag] using ih _ _ _ _ h
    · rw [parseLoop_cons_single] at h
      simpa [List.countP_cons, isExpTag] using ih _ _ _ _ h
    · by_cases hke : k = "expiration"
      · subst hke
        rw [parseLoop_cons_exp] at h
        cases fE with
        | true => simp at h
        | false =>
          rw [if_neg (by simp)] at h
          cases hpv : parseInt64 v with
          | none => rw [hpv] at h; simp at h
          | some n =>
            rw [hpv] at h
            have hthis : List.countP isExpTag rest = 0 := by
              simpa using ih _ _ _ _ h
            rw [List.countP_cons_of_pos _ _ (by simp [isExpTag]), hthis]
            simp
      · by_cases hk : k = "t"
        · subst hk
          rw [parseLoop_cons_t] at h
          cases fT with
          | true => simp at h
          | false =>
            rw [if_neg (by simp)] at h
            cases hv : validActions.contains v with
            | false => rw [hv] at h; simp at h
            | true =>
              rw [hv] at h
              rw [if_pos rfl] at h
              simpa [List.countP_cons, isExpTag] using ih _ _ _ _ h
        · obtain ⟨a₁, heq, -, -, -, -⟩ :=
            parseLoop_cons_skip (k :: v :: w) rest fT fE a
              (by simp [isTTag, hk]) (by simp [isExpTag, hke])
          rw [heq] at h
          simpa [List.countP_cons, isExpTag, hke] using ih _ _ _ _ h

/-- If the tag loop returns ok, no dispatched `t` tag carried an invalid
action value. -/
theorem parseLoop_ok_noBadT (tags : List Tag) :
    ∀ (fT fE : Bool) (a : BlossomAuth) (r : Bool × Bool × BlossomAuth),
    parseLoop tags fT fE a = .ok r → ∀ g ∈ tags, isBadT g = false := by
  induction tags with
  | nil => intro fT fE a r _ g hg; exact absurd hg (List.not_mem_nil g)
  | cons g0 rest ih =>
    intro fT fE a r h g hg
    rcases List.mem_cons.mp hg with hg0 | hgr
    · subst hg0
      rcases g with _ | ⟨k, _ | ⟨v, w⟩⟩
      · simp [isBadT]
      · simp [isBadT]
      · by_cases hk : k = "t"
        · subst hk
          rw [parseLoop_cons_t] at h
          cases fT with
          | true => simp at h
          | false =>
            rw [if_neg (by simp)] at h
            cases hv : validActions.contains v with
            | false => rw [hv] at h; simp at h
            | true =>
              simp only [isBadT]
              rw [hv]
              simp
        · simp [isBadT, hk]
    · rcases g0 with _ | ⟨k, _ | ⟨v, w⟩⟩
      · rw [parseLoop_cons_nil] at h
        exact ih _ _ _ _ h g hgr
      · rw [parseLoop_cons_single] at h
        exact ih _ _ _ _ h g hgr
      · by_cases hk : k = "t"
        · subst hk
          rw [parseLoop_cons_t] at h
          cases fT with
          | true => simp at h
          | false =>
            rw [if_neg (by simp)] at h
            cases hv : validActions.contains v with
            | false => rw [hv] at h; simp at h
            | true =>
              rw [hv] at h
              rw [if_pos rfl] at h
              exact ih _ _ _ _ h g hgr
        · by_cases hke : k = "expiration"
          · subst hke
            rw [parseLoop_cons_exp] at h
            cases fE with
            | true => simp at h
            | false =>
              rw [if_neg (by simp)] at h
              cases hpv : parseInt64 v with
              | none => rw [hpv] at h; simp at h
              | some n =>
                rw [hpv] at h
                exact ih _ _ _ _ h g hgr
          · obtain ⟨a₁, heq, -, -, -, -⟩ :=
              parseLoop_cons_skip (k :: v :: w) rest fT fE a
                (by simp [isTTag, hk]) (by simp [isExpTag, hke])
            rw [heq] at h
            exact ih _ _ _ _ h g hgr

/-- Inversion: a successful parse means the kind and budget checks passed and
the tag loop returned ok with both flags set. -/
theorem parse_ok_inv (ev : NostrEvent) (a : BlossomAuth)
    (h : ParseBlossomAuth (some ev) = .ok a) :
    parseLoop ev.tags false false (initAuth ev) = .ok (true, true, a) := by
  simp only [ParseBlossomAuth] at h
  by_cases h1 : ev.kind ≠ KindBlossomAuth
  · rw [if_pos h1] at h; exact absurd h (by simp)
  · rw [if_neg h1] at h
    by_cases h2 : MaxTags < ev.tags.length
    · rw [if_pos h2] at h; exact absurd h (by simp)
    · rw [if_neg h2] at h
      cases hp : parseLoop ev.tags false false (initAuth ev) with
      | error msg => rw [hp] at h; exact absurd h (by simp)
      | ok r =>
        obtain ⟨fT, fE, a₁⟩ := r
        rw [hp] at h
        cases fT with
        | false => simp at h
        | true =>
          cases fE with
          | false => simp at h
          | true =>
            simp at h
            subst h
            rfl

end Blossy

namespace Blossy

/-- Claim C4: for every event of the capability kind within the tag budget,
parsing fails whenever the tags contain two dispatched `t` tags, or two
dispatched `expiration` tags, or a `t` tag whose value is not one of the four
valid actions — regardless of any other tag content. -/
theorem parse_rejects_bad_tags (ev : NostrEvent)
    (hkind : ev.kind = KindBlossomAuth) (hbudget : ev.tags.length ≤ MaxTags)
    (hbad : 2 ≤ ev.tags.countP isTTag ∨ 2 ≤ ev.tags.countP isExpTag ∨
      ∃ g ∈ ev.tags, isBadT g = true) :
    ∃ msg, ParseBlossomAuth (some ev) = .error msg := by
  cases hres : ParseBlossomAuth (some ev) with
  | error msg => exact ⟨msg, rfl⟩
  | ok a =>
    exfalso
    have hloop := parse_ok_inv ev a hres
    rcases hbad with h | h | ⟨g, hg, hbadg⟩
    · have := parseLoop_ok_countT ev.tags false false (initAuth ev) _ hloop
      simp at this
      omega
    · have := parseLoop_ok_countExp ev.tags false false (initAuth ev) _ hloop
      simp at this
      omega
    · have := parseLoop_ok_noBadT ev.tags false false (initAuth ev) _ hloop g hg
      rw [hbadg] at this
      exact Bool.noConfusion this

/-- Witness for C4: an event with a duplicate `t` tag fails to parse. -/
theorem parse_rejects_bad_tags_witness :
    ∃ msg, ParseBlossomAuth (some ⟨"pk", 100, 24242,
      [["t", "upload"], ["t", "get"], ["expiration", "200"]]⟩) = .error msg :=
  parse_rejects_bad_tags ⟨"pk", 100, 24242,
      [["t", "upload"], ["t", "get"], ["expiration", "200"]]⟩
    rfl (by decide) (Or.inl (by decide))

end Blossy

namespace Blossy

/-- A dispatched `t` tag has the key "t" and at least two elements. -/
theorem isTTag_shape (g : Tag) (h : isTTag g = true) : ∃ v w, g = "t" :: v :: w := by
  rcases g with _ | ⟨k, _ | ⟨v, w⟩⟩
  · simp [isTTag] at h
  · simp [isTTag] at h
  · simp [isTTag] at h
    exact ⟨v, w, by rw [h]⟩

/-- A dispatched `expiration` tag has the key "expiration" and at least two
elements. -/
theorem isExpTag_shape (g : Tag) (h : isExpTag g = true) :
    ∃ v w, g = "expiration" :: v :: w := by
  rcases g with _ | ⟨k, _ | ⟨v, w⟩⟩
  · simp [isExpTag] at h
  · simp [isExpTag] at h
  · simp [isExpTag] at h
    exact ⟨v, w, by rw [h]⟩

/-- Running the tag loop over tags containing no dispatched `t` or
`expiration` tag succeeds, keeps both flags, and preserves the action,
expiration, pubkey and createdAt fields of the accumulator. -/
theorem parseLoop_skip_all (tags : List Tag) :
    ∀ (fT fE : Bool) (a : BlossomAuth),
    (∀ g ∈ tags, isTTag g = false) → (∀ g ∈ tags, isExpTag g = false) →
    ∃ a₁, parseLoop tags fT fE a = .ok (fT, fE, a₁) ∧
      a₁.action = a.action ∧ a₁.expiration = a.expiration ∧
      a₁.pubkey = a.pubkey ∧ a₁.createdAt = a.createdAt := by
  induction tags with
  | nil => intro fT fE a _ _; exact ⟨a, rfl, rfl, rfl, rfl, rfl⟩
  | cons g rest ih =>
    intro fT fE a hT hE
    obtain ⟨a₁, heq, h1, h2, h3, h4⟩ := parseLoop_cons_skip g rest fT fE a
      (hT g (List.mem_cons_self g rest)) (hE g (List.mem_cons_self g rest))
    obtain ⟨a₂, heq2, g1, g2, g3, g4⟩ := ih fT fE a₁
      (fun g' hg' => hT g' (List.mem_cons_of_mem g hg'))
      (fun g' hg' => hE g' (List.mem_cons_of_mem g hg'))
    exact ⟨a₂, by rw [heq, heq2], by rw [g1, h1], by rw [g2, h2],
      by rw [g3, h3], by rw [g4, h4]⟩

/-- Running the tag loop with foundT unset over tags containing exactly one
dispatched `t` tag (with a valid action) and no `expiration` tag sets the
action to that value. -/
theorem parseLoop_one_t (tags : List Tag) :
    ∀ (fE : Bool) (a : BlossomAuth) (tt : Tag) (act : String),
    tags.filter isTTag = [tt] → tt.get? 1 = some act →
    validActions.contains act = true →
    (∀ g ∈ tags, isExpTag g = false) →
    ∃ a₁, parseLoop tags false fE a = .ok (true, fE, a₁) ∧ a₁.action = act ∧
      a₁.expiration = a.expiration ∧ a₁.pubkey = a.pubkey ∧
      a₁.createdAt = a.createdAt := by
  induction tags with
  | nil => intro fE a tt act hf; simp at hf
  | cons g rest ih =>
    intro fE a tt act hf hget hvalid hE
    by_cases hg : isTTag g = true
    · obtain ⟨v, w, rfl⟩ := isTTag_shape g hg
      rw [List.filter_cons_of_pos hg] at hf
      have htt := List.cons_eq_cons.mp hf
      obtain ⟨httg, hrest⟩ := htt
      have hv : v = act := by
        rw [← httg] at hget
        simpa using hget
      subst hv
      rw [parseLoop_cons_t, if_neg (by simp), if_pos hvalid]
      have hnoT : ∀ g' ∈ rest, isTTag g' = false := by
        intro g' hg'
        simpa using List.filter_eq_nil_iff.mp hrest g' hg'
      obtain ⟨a₁, heq, h1, h2, h3, h4⟩ := parseLoop_skip_all rest true fE
        { a with action := v } hnoT
        (fun g' hg' => hE g' (List.mem_cons_of_mem _ hg'))
      exact ⟨a₁, heq, h1, h2, h3, h4⟩
    · have hgb : isTTag g = false := by simpa using hg
      have hgE : isExpTag g = false := hE g (List.mem_cons_self g rest)
      rw [List.filter_cons_of_neg hg] at hf
      obtain ⟨a₁, heq, h1, h2, h3, h4⟩ := parseLoop_cons_skip g rest false fE a hgb hgE
      obtain ⟨a₂, heq2, g1, g2, g3, g4⟩ := ih fE a₁ tt act hf hget hvalid
        (fun g' hg' => hE g' (List.mem_cons_of_mem g hg'))
      exact ⟨a₂, by rw [heq, heq2], g1, by rw [g2, h2], by rw [g3, h3],
        by rw [g4, h4]⟩

/-- Running the tag loop with foundExp unset over tags containing exactly one
dispatched `expiration` tag (with a parseable value) and no `t` tag sets the
expiration to that value. -/
theorem parseLoop_one_exp (tags : List Tag) :
    ∀ (fT : Bool) (a : BlossomAuth) (te : Tag) (es : String) (n : Int),
    tags.filter isExpTag = [te] → te.get? 1 = some es →
    parseInt64 es = some n →
    (∀ g ∈ tags, isTTag g = false) →
    ∃ a₁, parseLoop tags fT false a = .ok (fT, true, a₁) ∧ a₁.expiration = n ∧
      a₁.action = a.action ∧ a₁.pubkey = a.pubkey ∧
      a₁.createdAt = a.createdAt := by
  induction tags with
  | nil => intro fT a te es n hf; simp at hf
  | cons g rest ih =>
    intro fT a te es n hf hget hn hT
    by_cases hg : isExpTag g = true
    · obtain ⟨v, w, rfl⟩ := isExpTag_shape g hg
      rw [List.filter_cons_of_pos hg] at hf
      obtain ⟨htte, hrest⟩ := List.cons_eq_cons.mp hf
      have hv : v = es := by
        rw [← htte] at hget
        simpa using hget
      subst hv
      rw [parseLoop_cons_exp, if_neg (by simp), hn]
      have hnoE : ∀ g' ∈ rest, isExpTag g' = false := by
        intro g' hg'
        simpa using List.filter_eq_nil_iff.mp hrest g' hg'
      obtain ⟨a₁, heq, h1, h2, h3, h4⟩ := parseLoop_skip_all rest fT true
        { a with expiration := n }
        (fun g' hg' => hT g' (List.mem_cons_of_mem _ hg')) hnoE
      exact ⟨a₁, heq, h2, h1, h3, h4⟩
    · have hgb : isExpTag g = false := by simpa using hg
      have hgT : isTTag g = false := hT g (List.mem_cons_self g rest)
      rw [List.filter_cons_of_neg hg] at hf
      obtain ⟨a₁, heq, h1, h2, h3, h4⟩ := parseLoop_cons_skip g rest fT false a hgT hgb
      obtain ⟨a₂, heq2, g1, g2, g3, g4⟩ := ih fT a₁ te es n hf hget hn
        (fun g' hg' => hT g' (List.mem_cons_of_mem g hg'))
      exact ⟨a₂, by rw [heq, heq2], g1, by rw [g2, h1], by rw [g3, h3],
        by rw [g4, h4]⟩

/-- Running the tag loop with both flags unset over tags containing exactly
one dispatched `t` tag (valid action) and exactly one dispatched `expiration`
tag (parseable value) succeeds with both flags set, the action and expiration
taken from those tags, and pubkey and createdAt preserved. -/
theorem parseLoop_one_t_one_exp (tags : List Tag) :
    ∀ (a : BlossomAuth) (tt te : Tag) (act es : String) (n : Int),
    tags.filter isTTag = [tt] → tt.get? 1 = some act →
    validActions.contains act = true →
    tags.filter isExpTag = [te] → te.get? 1 = some es →
    parseInt64 es = some n →
    ∃ a₁, parseLoop tags false false a = .ok (true, true, a₁) ∧
      a₁.action = act ∧ a₁.expiration = n ∧
      a₁.pubkey = a.pubkey ∧ a₁.createdAt = a.createdAt := by
  induction tags with
  | nil => intro a tt te act es n hf; simp at hf
  | cons g rest ih =>
    intro a tt te act es n hfT hgetT hvalid hfE hgetE hn
    by_cases hgT : isTTag g = true
    · obtain ⟨v, w, rfl⟩ := isTTag_shape g hgT
      rw [List.filter_cons_of_pos hgT] at hfT
      obtain ⟨httg, hTrest⟩ := List.cons_eq_cons.mp hfT
      have hv : v = act := by
        rw [← httg] at hgetT
        simpa using hgetT
      subst hv
      have hgE : isExpTag ("t" :: v :: w) = false := by simp [isExpTag]
      rw [List.filter_cons_of_neg (by simp [hgE])] at hfE
      rw [parseLoop_cons_t, if_neg (by simp), if_pos hvalid]
      have hnoT : ∀ g' ∈ rest, isTTag g' = false := by
        intro g' hg'
        simpa using List.filter_eq_nil_iff.mp hTrest g' hg'
      obtain ⟨a₁, heq, h1, h2, h3, h4⟩ := parseLoop_one_exp rest true
        { a with action := v } te es n hfE hgetE hn hnoT
      exact ⟨a₁, heq, h2, h1, h3, h4⟩
    · by_cases hgE : isExpTag g = true
      · obtain ⟨v, w, rfl⟩ := isExpTag_shape g hgE
        rw [List.filter_cons_of_pos hgE] at hfE
        obtain ⟨htte, hErest⟩ := List.cons_eq_cons.mp hfE
        have hv : v = es := by
          rw [← htte] at hgetE
          simpa using hgetE
        subst hv
        rw [List.filter_cons_of_neg hgT] at hfT
        rw [parseLoop_cons_exp, if_neg (by simp), hn]
        have hnoE : ∀ g' ∈ rest, isExpTag g' = false := by
          intro g' hg'
          simpa using List.filter_eq_nil_iff.mp hErest g' hg'
        obtain ⟨a₁, heq, h1, h2, h3, h4⟩ := parseLoop_one_t rest true
          { a with expiration := n } tt act hfT hgetT hvalid hnoE
        exact ⟨a₁, heq, h1, h2, h3, h4⟩
      · have hgTb : isTTag g = false := by simpa using hgT
        have hgEb : isExpTag g = false := by simpa using hgE
        rw [List.filter_cons_of_neg hgT] at hfT
        rw [List.filter_cons_of_neg hgE] at hfE
        obtain ⟨a₁, heq, h1, h2, h3, h4⟩ := parseLoop_cons_skip g rest false false a hgTb hgEb
        obtain ⟨a₂, heq2, g1, g2, g3, g4⟩ := ih a₁ tt te act es n hfT hgetT hvalid
          hfE hgetE hn
        exact ⟨a₂, by rw [heq, heq2], g1, g2, by rw [g3, h3], by rw [g4, h4]⟩

end Blossy

namespace Blossy

/-- Claim C5: for every non-nil event of kind 24242 within the tag budget
whose tags contain exactly one dispatched `t` tag carrying a valid action and
exactly one dispatched `expiration` tag carrying a base-10 integer, parsing
succeeds; the returned capability's action equals the `t` value, its
expiration equals the `expiration` value read as a unix timestamp, and its
createdAt and principal are copied from the event's created_at and pubkey
fields. -/
theorem parse_accepts_valid (ev : NostrEvent) (tt te : Tag) (act es : String) (n : Int)
    (hkind : ev.kind = KindBlossomAuth) (hbudget : ev.tags.length ≤ MaxTags)
    (hT : ev.tags.filter isTTag = [tt]) (hTv : tt.get? 1 = some act)
    (hTvalid : validActions.contains act = true)
    (hE : ev.tags.filter isExpTag = [te]) (hEv : te.get? 1 = some es)
    (hEn : parseInt64 es = some n) :
    ∃ a, ParseBlossomAuth (some ev) = .ok a ∧ a.action = act ∧ a.expiration = n ∧
      a.pubkey = ev.pubKey ∧ a.createdAt = ev.createdAt := by
  obtain ⟨a₁, hloop, hact, hexp, hpk, hca⟩ := parseLoop_one_t_one_exp ev.tags
    (initAuth ev) tt te act es n hT hTv hTvalid hE hEv hEn
  refine ⟨a₁, ?_, hact, hexp, by rw [hpk]; rfl, by rw [hca]; rfl⟩
  simp only [ParseBlossomAuth]
  rw [if_neg (by simp [hkind]), if_neg (by omega), hloop]
  simp

/-- Witness for C5 at a concrete valid event. -/
theorem parse_accepts_valid_witness :
    ∃ a, ParseBlossomAuth (some ⟨"pk", 100, 24242,
        [["server", "cdn.example.com"], ["t", "upload"], ["p", "zz"],
         ["expiration", "200"]]⟩) = .ok a ∧
      a.action = "upload" ∧ a.expiration = 200 ∧ a.pubkey = "pk" ∧
      a.createdAt = 100 :=
  parse_accepts_valid ⟨"pk", 100, 24242,
      [["server", "cdn.example.com"], ["t", "upload"], ["p", "zz"],
       ["expiration", "200"]]⟩
    ["t", "upload"] ["expiration", "200"] "upload" "200" 200
    rfl (by decide) (by decide) (by decide) (by decide) (by decide) (by decide)
    (by decide)

/-- Appending tag lists composes the tag loop sequentially. -/
theorem parseLoop_append (xs : List Tag) :
    ∀ (ys : List Tag) (fT fE : Bool) (a : BlossomAuth),
    parseLoop (xs ++ ys) fT fE a =
      match parseLoop xs fT fE a with
      | .error e => .error e
      | .ok r => parseLoop ys r.1 r.2.1 r.2.2 := by
  induction xs with
  | nil => intro ys fT fE a; rfl
  | cons g rest ih =>
    intro ys fT fE a
    rcases g with _ | ⟨k, _ | ⟨v, w⟩⟩
    · rw [List.cons_append, parseLoop_cons_nil, parseLoop_cons_nil, ih]
    · rw [List.cons_append, parseLoop_cons_single, parseLoop_cons_single, ih]
    · by_cases hk : k = "t"
      · subst hk
        rw [List.cons_append, parseLoop_cons_t, parseLoop_cons_t]
        cases fT with
        | true => simp
        | false =>
          cases hv : validActions.contains v with
          | false => simp [hv]
          | true => simp [hv, ih]
      · by_cases hke : k = "expiration"
        · subst hke
          rw [List.cons_append, parseLoop_cons_exp, parseLoop_cons_exp]
          cases fE with
          | true => simp
          | false =>
            cases hpv : parseInt64 v with
            | none => simp [hpv]
            | some n => simp [hpv, ih]
        · by_cases hkx : k = "x"
          · subst hkx
            rw [List.cons_append, parseLoop_cons_x, parseLoop_cons_x]
            cases hpv : ParseHash v with
            | none => simp [hpv, ih]
            | some h => simp [hpv, ih]
          · by_cases hks : k = "server"
            · subst hks
              rw [List.cons_append, parseLoop_cons_server, parseLoop_cons_server, ih]
            · rw [List.cons_append, parseLoop_cons_other k v w _ _ _ _ hk hke hkx hks,
                parseLoop_cons_other k v w _ _ _ _ hk hke hkx hks, ih]

end Blossy

namespace Blossy

/-- When the tag loop succeeds, the resulting hash list is the initial one
followed by the parsed values of exactly the well-formed `x` tags. -/
theorem parseLoop_hashes (tags : List Tag) :
    ∀ (fT fE : Bool) (a : BlossomAuth) (r : Bool × Bool × BlossomAuth),
    parseLoop tags fT fE a = .ok r →
    r.2.2.hashes = a.hashes ++ tags.filterMap xValue := by
  induction tags with
  | nil =>
    intro fT fE a r h
    simp only [parseLoop] at h
    injection h with h
    rw [← h]
    simp
  | cons g rest ih =>
    intro fT fE a r h
    rcases g with _ | ⟨k, _ | ⟨v, w⟩⟩
    · rw [parseLoop_cons_nil] at h
      simpa [xValue] using ih _ _ _ _ h
    · rw [parseLoop_cons_single] at h
      simpa [xValue] using ih _ _ _ _ h
    · by_cases hk : k = "t"
      · subst hk
        rw [parseLoop_cons_t] at h
        cases fT with
        | true => simp at h
        | false =>
          rw [if_neg (by simp)] at h
          cases hv : validActions.contains v with
          | false => rw [hv] at h; simp at h
          | true =>
            rw [hv, if_pos rfl] at h
            simpa [xValue] using ih _ _ _ _ h
      · by_cases hke : k = "expiration"
        · subst hke
          rw [parseLoop_cons_exp] at h
          cases fE with
          | true => simp at h
          | false =>
            rw [if_neg (by simp)] at h
            cases hpv : parseInt64 v with
            | none => rw [hpv] at h; simp at h
            | some n =>
              rw [hpv] at h
              simpa [xValue] using ih _ _ _ _ h
        · by_cases hkx : k = "x"
          · subst hkx
            rw [parseLoop_cons_x] at h
            cases hpv : ParseHash v with
            | none =>
              rw [hpv] at h
              have := ih _ _ _ _ h
              rw [this]
              simp [xValue, hpv]
            | some hsh =>
              rw [hpv] at h
              have := ih _ _ _ _ h
              rw [this]
              simp [xValue, hpv]
          · by_cases hks : k = "server"
            · subst hks
              rw [parseLoop_cons_server] at h
              have := ih _ _ _ _ h
              rw [this]
              simp [xValue, hkx]
            · rw [parseLoop_cons_other k v w _ _ _ _ hk hke hkx hks] at h
              have := ih _ _ _ _ h
              rw [this]
              simp [xValue, hkx]

/-- Removing an `x` tag whose value does not parse leaves the tag loop
unchanged. -/
theorem parseLoop_remove_x (pre post : List Tag) (v : String) (w : List String)
    (hbad : ParseHash v = none) (fT fE : Bool) (a : BlossomAuth) :
    parseLoop (pre ++ ("x" :: v :: w) :: post) fT fE a =
      parseLoop (pre ++ post) fT fE a := by
  rw [parseLoop_append, parseLoop_append]
  cases hp : parseLoop pre fT fE a with
  | error e => rfl
  | ok r =>
    show parseLoop (("x" :: v :: w) :: post) r.1 r.2.1 r.2.2 =
      parseLoop post r.1 r.2.1 r.2.2
    rw [parseLoop_cons_x, hbad]

/-- Claim C7: an `x` tag whose value is not a valid 64-hex-character resource
hash neither causes the parse to fail nor changes its result at all — the
event parses exactly as if the tag were absent — and the hash list of any
successfully parsed capability consists of exactly the parsed values of the
well-formed `x` tags, so a malformed `x` entry contributes no authorized
hash. -/
theorem parse_skips_invalid_x (ev : NostrEvent) (pre post : List Tag)
    (v : String) (w : List String)
    (hkind : ev.kind = KindBlossomAuth)
    (htags : ev.tags = pre ++ (("x" :: v :: w) :: post))
    (hbadv : ParseHash v = none)
    (hbudget : ev.tags.length ≤ MaxTags) :
    ParseBlossomAuth (some ev) =
      ParseBlossomAuth (some { ev with tags := pre ++ post }) ∧
    (∀ a, ParseBlossomAuth (some ev) = .ok a →
      a.hashes = ev.tags.filterMap xValue) := by
  constructor
  · have hlen : pre.length + post.length ≤ MaxTags := by
      rw [htags] at hbudget
      simp only [List.length_append, List.length_cons] at hbudget
      omega
    simp only [ParseBlossomAuth]
    rw [if_neg (by simp [hkind]), if_neg (by omega),
      if_neg (by simp [hkind]), if_neg (by simp only [List.length_append]; omega)]
    have hsame : parseLoop ev.tags false false (initAuth ev) =
        parseLoop (pre ++ post) false false (initAuth ev) := by
      rw [htags]
      exact parseLoop_remove_x pre post v w hbadv false false (initAuth ev)
    rw [hsame]
    rfl
  · intro a ha
    have hloop := parse_ok_inv ev a ha
    have := parseLoop_hashes ev.tags false false (initAuth ev) _ hloop
    simpa [initAuth] using this

/-- Witness for C7: an event with a malformed `x` tag parses identically to
the event without it, and its hash list holds only the valid entries. -/
theorem parse_skips_invalid_x_witness :
    ParseBlossomAuth (some ⟨"pk", 100, 24242,
        [["t", "get"], ["x", "nothex"], ["expiration", "200"]]⟩) =
      ParseBlossomAuth (some ⟨"pk", 100, 24242,
        [["t", "get"], ["expiration", "200"]]⟩) ∧
    (∀ a, ParseBlossomAuth (some ⟨"pk", 100, 24242,
        [["t", "get"], ["x", "nothex"], ["expiration", "200"]]⟩) = .ok a →
      a.hashes = [["t", "get"], ["x", "nothex"],
        ["expiration", "200"]].filterMap xValue) :=
  parse_skips_invalid_x ⟨"pk", 100, 24242,
      [["t", "get"], ["x", "nothex"], ["expiration", "200"]]⟩
    [["t", "get"]] [["expiration", "200"]] "nothex" []
    rfl rfl (by decide) (by decide)

end Blossy

namespace Blossy

/-- Claim C2: when the Authorization header is absent, `Authenticate` returns
the empty principal and no error; whenever extraction (other than missing
header), the event-ID check, the signature check, action resolution,
capability parsing, or validation fails, it returns the empty principal with
a non-nil error; and a non-empty principal is never returned alongside an
error. -/
theorem authenticate_principal_error (ext : Externals) (r : Request)
    (hostname : String) (hash : Option Hash) (now : Int) :
    (r.authHeader = "" → Authenticate ext r hostname hash now = ("", none)) ∧
    (∀ p e, Authenticate ext r hostname hash now = (p, some e) → p = "") ∧
    (∀ e, ExtractEvent ext r = .error e → e ≠ .missingHeader →
      Authenticate ext r hostname hash now = ("", some (.extractErr e))) ∧
    (∀ ev, ExtractEvent ext r = .ok ev → ext.checkID ev = false →
      Authenticate ext r hostname hash now = ("", some .invalidID)) ∧
    (∀ ev m, ExtractEvent ext r = .ok ev → ext.checkID ev = true →
      ext.checkSig ev = .error m →
      Authenticate ext r hostname hash now = ("", some (.invalidSigErr m))) ∧
    (∀ ev, ExtractEvent ext r = .ok ev → ext.checkID ev = true →
      ext.checkSig ev = .ok false →
      Authenticate ext r hostname hash now = ("", some .invalidSig)) ∧
    (∀ ev m, ExtractEvent ext r = .ok ev → ext.checkID ev = true →
      ext.checkSig ev = .ok true → impliedAction r = .error m →
      Authenticate ext r hostname hash now = ("", some (.noImpliedAction m))) ∧
    (∀ ev act m, ExtractEvent ext r = .ok ev → ext.checkID ev = true →
      ext.checkSig ev = .ok true → impliedAction r = .ok act →
      ev.kind = KindBlossomAuth → ParseBlossomAuth (some ev) = .error m →
      Authenticate ext r hostname hash now = ("", some (.parseErr m))) ∧
    (∀ ev act auth e, ExtractEvent ext r = .ok ev → ext.checkID ev = true →
      ext.checkSig ev = .ok true → impliedAction r = .ok act →
      ev.kind = KindBlossomAuth → ParseBlossomAuth (some ev) = .ok auth →
      ValidateOpt auth act hash hostname now = .error e →
      Authenticate ext r hostname hash now = ("", some (.validateErr e))) ∧
    (∀ ev act auth, ExtractEvent ext r = .ok ev → ext.checkID ev = true →
      ext.checkSig ev = .ok true → impliedAction r = .ok act →
      ev.kind = KindBlossomAuth → ParseBlossomAuth (some ev) = .ok auth →
      ValidateOpt auth act hash hostname now = .ok () →
      Authenticate ext r hostname hash now = (auth.pubkey, none)) := by
  refine ⟨?_, ?_, ?_, ?_, ?_, ?_, ?_, ?_, ?_, ?_⟩
  · intro hh
    have hx : ExtractEvent ext r = .error .missingHeader := by
      unfold ExtractEvent
      rw [if_pos hh]
    unfold Authenticate
    rw [hx]
  · intro p e h
    unfold Authenticate at h
    split at h
    · simp at h
    · simp at h
      exact h.1.symm
    · split at h
      · simp at h
        exact h.1.symm
      · split at h
        · simp at h
          exact h.1.symm
        · simp at h
          exact h.1.symm
        · split at h
          · simp at h
            exact h.1.symm
          · split at h
            · split at h
              · simp at h
                exact h.1.symm
              · split at h
                · simp at h
                  exact h.1.symm
                · simp at h
            · simp at h
              exact h.1.symm
  · intro e hx hne
    cases e with
    | missingHeader => exact absurd rfl hne
    | invalidScheme => simp [Authenticate, hx]
    | invalidBase64 d => simp [Authenticate, hx]
    | invalidJSON m => simp [Authenticate, hx]
  · intro ev hx hid
    simp [Authenticate, hx, hid]
  · intro ev m hx hid hsig
    simp [Authenticate, hx, hid, hsig]
  · intro ev hx hid hsig
    simp [Authenticate, hx, hid, hsig]
  · intro ev m hx hid hsig hia
    simp [Authenticate, hx, hid, hsig, hia]
  · intro ev act m hx hid hsig hia hkind hparse
    simp [Authenticate, hx, hid, hsig, hia, hkind, hparse]
  · intro ev act auth e hx hid hsig hia hkind hparse hval
    simp [Authenticate, hx, hid, hsig, hia, hkind, hparse, hval]
  · intro ev act auth hx hid hsig hia hkind hparse hval
    simp [Authenticate, hx, hid, hsig, hia, hkind, hparse, hval]

/-- Witness for C2: a request with no Authorization header authenticates to
the empty principal with no error, and a request with a bad scheme yields the
empty principal with a hard error. -/
theorem authenticate_principal_error_witness :
    Authenticate extTriv ⟨"GET", "/abc", ""⟩ "cdn" none 0 = ("", none) ∧
    Authenticate extTriv ⟨"GET", "/abc", "Basic abc123"⟩ "cdn" none 0 =
      ("", some (.extractErr .invalidScheme)) := by
  constructor
  · exact (authenticate_principal_error extTriv ⟨"GET", "/abc", ""⟩ "cdn" none 0).1 rfl
  · exact (authenticate_principal_error extTriv
        ⟨"GET", "/abc", "Basic abc123"⟩ "cdn" none 0).2.2.1
      .invalidScheme (by decide) (by decide)

end Blossy
